import Mathlib

/-!
Shallow embedding of `riscv_mean_q15` from
`src/components/nmsis/dsp/src/StatisticsFunctions/riscv_mean_q15.c`.

The kernel computes the mean of a vector of Q1.15 samples.  Samples are
modelled as `Int` values in `[-2^15, 2^15)` (the value set of `q15_t`); the
input buffer together with `blockSize` is modelled as a `List Int` whose
length is the block size.  The 32-bit accumulator `q31_t sum`, the 64-bit
packed temporaries, and the final `(q15_t)` narrowing cast are modelled by
explicit two's-complement wrapping (`% 2^w`, recentred to the signed range).
C's signed integer division `/` truncates toward zero and is modelled by
`Int.tdiv`.  Arithmetic right shift of a signed value is floor division by a
power of two, i.e. `Int.ediv` (Lean's `/` on `Int`) by `2^k`.

The file embeds all three execution strategies of the source:
the portable scalar loop (lines 138-145), the `RISCV_MATH_LOOPUNROLL` path
for both `__RISCV_XLEN == 32` (pairwise packed reads) and
`__RISCV_XLEN == 64` (`read_q15x4_ia` plus `__RV_KADD16`), and the
`RISCV_VECTOR` path (chunked widening reduction).
-/

/-- Two's-complement wraparound of an integer to the signed 32-bit range,
the value semantics of the `q31_t` accumulator. -/
def wrap32 (x : Int) : Int := (x + 2^31) % 2^32 - 2^31

/-- Two's-complement wraparound to the signed 16-bit range, the value
semantics of the `(q15_t)` narrowing cast. -/
def wrap16 (x : Int) : Int := (x + 2^15) % 2^16 - 2^15

/-- Two's-complement wraparound to the signed 64-bit range (`q63_t`). -/
def wrap64 (x : Int) : Int := (x + 2^63) % 2^64 - 2^63

/-- The spec's `truncate_to_q15`: the narrowing cast `(q15_t)` applied to the
32-bit quotient, wrapping without saturation. -/
def truncate_to_q15 (x : Int) : Int := wrap16 x

/-- The cast `(int32_t) blockSize` applied to the unsigned 32-bit length in
the final division `sum / (int32_t)blockSize`. -/
def toInt32 (n : Nat) : Int := wrap32 n

/-- The value range of a `q15_t` sample. -/
def isQ15 (v : Int) : Prop := -2^15 ≤ v ∧ v < 2^15

instance (v : Int) : Decidable (isQ15 v) :=
  inferInstanceAs (Decidable (-2^15 ≤ v ∧ v < 2^15))

/-- The scalar accumulation loop `while (blkCnt > 0U) { sum += *pSrc++; ... }`
started from accumulator value `sum`.  It is both the whole portable strategy
and the remainder loop of the unrolled strategies. -/
def meanLoop (sum : Int) (l : List Int) : Int :=
  l.foldl (fun s x => wrap32 (s + x)) sum

/-- The portable strategy's accumulated sum: the scalar loop started at 0. -/
def q15sum (l : List Int) : Int := meanLoop 0 l

/-- Portable scalar strategy of `riscv_mean_q15` (no `RISCV_MATH_LOOPUNROLL`,
no `RISCV_VECTOR`): scalar accumulation followed by
`*pResult = (q15_t) (sum / (int32_t) blockSize)`. -/
def riscv_mean_q15 (l : List Int) : Int :=
  truncate_to_q15 (Int.tdiv (q15sum l) (toInt32 l.length))

/-- 32-bit logical left shift as used in `(in << 16U)`: the shifted value
wraps to the signed 32-bit range. -/
def lsl32 (x : Int) (k : Nat) : Int := wrap32 (x * 2^k)

/-- 64-bit logical left shift as used in `(sum64 << 48U)`. -/
def lsl64 (x : Int) (k : Nat) : Int := wrap64 (x * 2^k)

/-- Arithmetic right shift of a signed value: floor division by `2^k`.
`Int.ediv` (Lean's `/`) floors for a positive divisor. -/
def asr (x : Int) (k : Nat) : Int := x / 2^k

/-- Low 16-bit field of a sample, as stored in a packed register. -/
def u16 (v : Int) : Int := v % 2^16

/-- Modelled from the spec: `read_q15x2_ia` (a helper declared outside
`src/`) "reading multiple packed samples at once" — two consecutive `q15_t`
samples packed little-endian into one signed 32-bit word. -/
def read_q15x2 (x0 x1 : Int) : Int := wrap32 (u16 x0 + u16 x1 * 2^16)

/-- Modelled from the spec: `read_q15x4_ia` — four consecutive `q15_t`
samples packed little-endian into one signed 64-bit word. -/
def read_q15x4 (x0 x1 x2 x3 : Int) : Int :=
  wrap64 (u16 x0 + u16 x1 * 2^16 + u16 x2 * 2^32 + u16 x3 * 2^48)

/-- Unsigned 16-bit lane `i` of the 64-bit pattern of `x`. -/
def ulane (i : Nat) (x : Int) : Int := (x % 2^64) / 2^(16*i) % 2^16

/-- Modelled from the spec: `__RV_KADD16` (an NMSIS core intrinsic, not under
`src/`) — a SIMD addition of the four 16-bit lanes of two 64-bit words.  The
spec mandates "no saturation arithmetic anywhere in this kernel", so each
lane sum is modelled as a wrapping two's-complement 16-bit addition.  (The
RISC-V P-extension instruction of this name clamps each lane to the 16-bit
range instead; either lane semantics loses the carry of a 17-bit pair sum,
which is what the divergence proved below exploits.) -/
def kadd16 (a b : Int) : Int :=
  wrap64 ((ulane 0 a + ulane 0 b) % 2^16
        + (ulane 1 a + ulane 1 b) % 2^16 * 2^16
        + (ulane 2 a + ulane 2 b) % 2^16 * 2^32
        + (ulane 3 a + ulane 3 b) % 2^16 * 2^48)

/-- The `RISCV_MATH_LOOPUNROLL` path for `__RISCV_XLEN == 32`: per iteration
two packed reads of two samples each, each decomposed by
`sum += ((in << 16U) >> 16U); sum += (in >> 16U);`, then the scalar
remainder loop on the fewer than four trailing samples. -/
def unrolledPass32 (sum : Int) : List Int → Int
  | x0 :: x1 :: x2 :: x3 :: rest =>
      let in1 := read_q15x2 x0 x1
      let s1 := wrap32 (sum + asr (lsl32 in1 16) 16)
      let s2 := wrap32 (s1 + asr in1 16)
      let in2 := read_q15x2 x2 x3
      let s3 := wrap32 (s2 + asr (lsl32 in2 16) 16)
      let s4 := wrap32 (s3 + asr in2 16)
      unrolledPass32 s4 rest
  | rest => meanLoop sum rest

/-- Unrolled strategy, `__RISCV_XLEN == 32` build: unrolled accumulation then
`*pResult = (q15_t) (sum / (int32_t) blockSize)`. -/
def riscv_mean_q15_unrolled32 (l : List Int) : Int :=
  truncate_to_q15 (Int.tdiv (unrolledPass32 0 l) (toInt32 l.length))

/-- The `RISCV_MATH_LOOPUNROLL` path for `__RISCV_XLEN == 64`: per iteration
two packed reads of four samples each, a lanewise SIMD add
`sum64 = __RV_KADD16(in64A, in64B)`, extraction of the four 16-bit lanes of
`sum64` by shifts `sum += ((q31_t)((sum64 << 48U) >> 48U));` etc., then the
scalar remainder loop on the fewer than eight trailing samples. -/
def unrolledPass64 (sum : Int) : List Int → Int
  | x0 :: x1 :: x2 :: x3 :: x4 :: x5 :: x6 :: x7 :: rest =>
      let in64A := read_q15x4 x0 x1 x2 x3
      let in64B := read_q15x4 x4 x5 x6 x7
      let sum64 := kadd16 in64A in64B
      let s1 := wrap32 (sum + asr (lsl64 sum64 48) 48)
      let s2 := wrap32 (s1 + asr (lsl64 sum64 32) 48)
      let s3 := wrap32 (s2 + asr (lsl64 sum64 16) 48)
      let s4 := wrap32 (s3 + asr sum64 48)
      unrolledPass64 s4 rest
  | rest => meanLoop sum rest

/-- Unrolled strategy, `__RISCV_XLEN == 64` build. -/
def riscv_mean_q15_unrolled64 (l : List Int) : Int :=
  truncate_to_q15 (Int.tdiv (unrolledPass64 0 l) (toInt32 l.length))

/-- Modelled from the spec: the `RISCV_VECTOR` strategy's accumulation loop
(`vsetvl_e16m8` / `vle16_v_i16m8` / `vwredsum_vs_i16m8_i32m1` are hardware
intrinsics, not under `src/`) — "stream the input through vector registers,
performing a widening reduction" over chunks of an adaptive vector length,
accumulating each chunk's widened sum into a 32-bit scalar total.  The chunk
size is `c + 1`, keeping the hardware's guarantee that a nonzero remaining
count yields a nonzero vector length. -/
def vectorLoop (c : Nat) (acc : Int) : List Int → Int
  | [] => acc
  | x :: xs => vectorLoop c (wrap32 (acc + ((x :: xs).take (c + 1)).sum)) (xs.drop c)
termination_by l => l.length
decreasing_by simp [List.length_drop]; omega

/-- Vector strategy: chunked widening reduction then
`*result = (q15_t) (sum / (int32_t) blockSize)`. -/
def riscv_mean_q15_vector (c : Nat) (l : List Int) : Int :=
  truncate_to_q15 (Int.tdiv (vectorLoop c 0 l) (toInt32 l.length))

/-- The spec's postcondition for `compute_mean`, written from its words:
`truncate_to_q15( sum(widen_to_q17_15(s) for s in input) / length )` with the
sum accumulated in a 32-bit integer, the division truncating toward zero,
and the division taken by the (unsigned) `length`. -/
def compute_mean_spec (l : List Int) : Int :=
  truncate_to_q15 (Int.tdiv (wrap32 l.sum) l.length)

/-- Division of the accumulated sum by the unsigned length (no `(int32_t)`
narrowing of `blockSize`), for comparison with the stored result. -/
def unsignedDivMean (l : List Int) : Int :=
  truncate_to_q15 (Int.tdiv (q15sum l) l.length)

/-- The exact running values of the 32-bit accumulator, one entry per
executed addition of the portable loop (plus the initial 0): the accumulator
never overflows exactly when all of these lie in the signed 32-bit range. -/
def accSteps (l : List Int) : List Int := List.scanl (fun s x => s + x) 0 l

/-- No step of the summation leaves the signed 32-bit range. -/
def noAccOverflow (l : List Int) : Prop :=
  ∀ p ∈ accSteps l, -2^31 ≤ p ∧ p < 2^31

instance (l : List Int) : Decidable (noAccOverflow l) :=
  inferInstanceAs (Decidable (∀ p ∈ accSteps l, -2^31 ≤ p ∧ p < 2^31))

/-- An input in which every sample is paired with its negation, the spec's
"input sequence symmetric around zero". -/
def symmetrize (l : List Int) : List Int := (l.map (fun v => [v, -v])).flatten

/-- The caller-visible state of one invocation: the input buffer and the
result slot `*pResult`. -/
structure KernelState where
  pSrc : List Int
  pResult : Int
deriving DecidableEq

/-- One invocation of the kernel on a state: reads the buffer, writes the
single result, mutates nothing else and carries no other state. -/
def invoke (s : KernelState) : KernelState :=
  { pSrc := s.pSrc, pResult := riscv_mean_q15 s.pSrc }

section
lemma wrap32_wrap32_add (a b : Int) : wrap32 (wrap32 a + b) = wrap32 (a + b) := by
  unfold wrap32; omega

lemma wrap32_zero : wrap32 0 = 0 := by decide

lemma meanLoop_wrap (l : List Int) : ∀ a : Int, meanLoop (wrap32 a) l = wrap32 (a + l.sum) := by
  induction l with
  | nil => intro a; simp [meanLoop]
  | cons x xs ih =>
      intro a
      have h1 : meanLoop (wrap32 a) (x :: xs) = meanLoop (wrap32 (wrap32 a + x)) xs := rfl
      rw [h1, wrap32_wrap32_add, ih (a + x)]
      congr 1
      simp [List.sum_cons]
      ring

lemma q15sum_eq (l : List Int) : q15sum l = wrap32 l.sum := by
  have h0 : q15sum l = meanLoop (wrap32 0) l := by rw [wrap32_zero]; rfl
  rw [h0, meanLoop_wrap]
  simp

lemma read_q15x2_lo (x0 x1 : Int) (h : isQ15 x0) : asr (lsl32 (read_q15x2 x0 x1) 16) 16 = x0 := by
  unfold isQ15 at h
  unfold asr lsl32 read_q15x2 u16 wrap32
  omega

lemma read_q15x2_hi (x0 x1 : Int) (h : isQ15 x1) : asr (read_q15x2 x0 x1) 16 = x1 := by
  unfold isQ15 at h
  unfold asr read_q15x2 u16 wrap32
  omega

lemma vectorLoop_wrap_aux : ∀ (n : Nat) (l : List Int), l.length ≤ n → ∀ (c : Nat) (a : Int),
    vectorLoop c (wrap32 a) l = wrap32 (a + l.sum) := by
  intro n
  induction n with
  | zero =>
      intro l hl c a
      have hnil : l = [] := List.eq_nil_of_length_eq_zero (Nat.le_zero.mp hl)
      subst hnil
      simp [vectorLoop]
  | succ n ih =>
      intro l hl c a
      match l with
      | [] => simp [vectorLoop]
      | x :: xs =>
          rw [vectorLoop, wrap32_wrap32_add]
          have hlen : (xs.drop c).length ≤ n := by
            simp only [List.length_cons] at hl
            simp [List.length_drop]
            omega
          rw [ih _ hlen c]
          have hsplit : (((x :: xs).take (c + 1)).sum + ((x :: xs).drop (c + 1)).sum : Int) = (x :: xs).sum :=
            List.sum_take_add_sum_drop _ _
          rw [List.drop_succ_cons] at hsplit
          congr 1
          linarith

lemma vectorLoop_wrap (c : Nat) (l : List Int) : vectorLoop c 0 l = wrap32 l.sum := by
  have h0 : vectorLoop c 0 l = vectorLoop c (wrap32 0) l := by rw [wrap32_zero]
  rw [h0, vectorLoop_wrap_aux l.length l le_rfl]
  simp
end

section
lemma wrap32_chain4 (a x0 x1 x2 x3 : Int) :
    wrap32 (wrap32 (wrap32 (wrap32 (wrap32 a + x0) + x1) + x2) + x3)
      = wrap32 (a + x0 + x1 + x2 + x3) := by
  unfold wrap32; omega

lemma unrolledPass32_wrap_aux : ∀ (n : Nat) (l : List Int), l.length ≤ n →
    (∀ v ∈ l, isQ15 v) → ∀ a : Int, unrolledPass32 (wrap32 a) l = wrap32 (a + l.sum) := by
  intro n
  induction n with
  | zero =>
      intro l hl _ a
      have hnil : l = [] := List.eq_nil_of_length_eq_zero (Nat.le_zero.mp hl)
      subst hnil
      have h0 : unrolledPass32 (wrap32 a) [] = meanLoop (wrap32 a) [] := rfl
      rw [h0, meanLoop_wrap]
  | succ n ih =>
      intro l hl hq a
      match l with
      | [] =>
          have h0 : unrolledPass32 (wrap32 a) [] = meanLoop (wrap32 a) [] := rfl
          rw [h0, meanLoop_wrap]
      | [x0] =>
          have h0 : unrolledPass32 (wrap32 a) [x0] = meanLoop (wrap32 a) [x0] := rfl
          rw [h0, meanLoop_wrap]
      | [x0, x1] =>
          have h0 : unrolledPass32 (wrap32 a) [x0, x1] = meanLoop (wrap32 a) [x0, x1] := rfl
          rw [h0, meanLoop_wrap]
      | [x0, x1, x2] =>
          have h0 : unrolledPass32 (wrap32 a) [x0, x1, x2] = meanLoop (wrap32 a) [x0, x1, x2] := rfl
          rw [h0, meanLoop_wrap]
      | x0 :: x1 :: x2 :: x3 :: rest =>
          have h0 : unrolledPass32 (wrap32 a) (x0 :: x1 :: x2 :: x3 :: rest) =
              unrolledPass32
                (wrap32 (wrap32 (wrap32 (wrap32 (wrap32 a + asr (lsl32 (read_q15x2 x0 x1) 16) 16)
                  + asr (read_q15x2 x0 x1) 16) + asr (lsl32 (read_q15x2 x2 x3) 16) 16)
                  + asr (read_q15x2 x2 x3) 16)) rest := rfl
          rw [h0]
          rw [read_q15x2_lo x0 x1 (hq x0 (by simp)), read_q15x2_hi x0 x1 (hq x1 (by simp))]
          rw [read_q15x2_lo x2 x3 (hq x2 (by simp)), read_q15x2_hi x2 x3 (hq x3 (by simp))]
          rw [wrap32_chain4]
          have hlen : rest.length ≤ n := by
            simp only [List.length_cons] at hl
            omega
          have hrest : ∀ v ∈ rest, isQ15 v := fun v hv => hq v (by simp [hv])
          rw [ih rest hlen hrest (a + x0 + x1 + x2 + x3)]
          congr 1
          simp [List.sum_cons]
          ring

lemma unrolledPass32_eq (l : List Int) (h : ∀ v ∈ l, isQ15 v) :
    unrolledPass32 0 l = wrap32 l.sum := by
  have h0 : unrolledPass32 0 l = unrolledPass32 (wrap32 0) l := by rw [wrap32_zero]
  rw [h0, unrolledPass32_wrap_aux l.length l le_rfl h]
  simp

lemma ulane_decompose (A0 A1 A2 A3 : Int) (h0 : 0 ≤ A0 ∧ A0 < 2^16) (h1 : 0 ≤ A1 ∧ A1 < 2^16)
    (h2 : 0 ≤ A2 ∧ A2 < 2^16) (h3 : 0 ≤ A3 ∧ A3 < 2^16) :
    ulane 0 (wrap64 (A0 + A1 * 2^16 + A2 * 2^32 + A3 * 2^48)) = A0
  ∧ ulane 1 (wrap64 (A0 + A1 * 2^16 + A2 * 2^32 + A3 * 2^48)) = A1
  ∧ ulane 2 (wrap64 (A0 + A1 * 2^16 + A2 * 2^32 + A3 * 2^48)) = A2
  ∧ ulane 3 (wrap64 (A0 + A1 * 2^16 + A2 * 2^32 + A3 * 2^48)) = A3 := by
  unfold ulane wrap64
  norm_num
  omega

lemma kadd16_lanes (a b : Int) :
    ulane 0 (kadd16 a b) = (ulane 0 a + ulane 0 b) % 2^16
  ∧ ulane 1 (kadd16 a b) = (ulane 1 a + ulane 1 b) % 2^16
  ∧ ulane 2 (kadd16 a b) = (ulane 2 a + ulane 2 b) % 2^16
  ∧ ulane 3 (kadd16 a b) = (ulane 3 a + ulane 3 b) % 2^16 := by
  unfold kadd16
  exact ulane_decompose _ _ _ _
    ⟨Int.emod_nonneg _ (by norm_num), Int.emod_lt_of_pos _ (by norm_num)⟩
    ⟨Int.emod_nonneg _ (by norm_num), Int.emod_lt_of_pos _ (by norm_num)⟩
    ⟨Int.emod_nonneg _ (by norm_num), Int.emod_lt_of_pos _ (by norm_num)⟩
    ⟨Int.emod_nonneg _ (by norm_num), Int.emod_lt_of_pos _ (by norm_num)⟩

lemma accSteps_mem_sum (l : List Int) : ∀ a : Int, (a + l.sum) ∈ List.scanl (fun s x => s + x) a l := by
  induction l with
  | nil => intro a; simp [List.scanl]
  | cons x xs ih =>
      intro a
      simp only [List.scanl, List.sum_cons, List.mem_cons]
      right
      have harr : a + (x + xs.sum) = a + x + xs.sum := by ring
      rw [harr]
      exact ih (a + x)

lemma accSteps_bound (l : List Int) : ∀ a : Int, (∀ v ∈ l, isQ15 v) →
    ∀ p ∈ List.scanl (fun s x => s + x) a l,
      a - l.length * 2^15 ≤ p ∧ p ≤ a + l.length * (2^15 - 1) := by
  induction l with
  | nil =>
      intro a _ p hp
      simp [List.scanl] at hp
      subst hp
      constructor <;> simp
  | cons x xs ih =>
      intro a hq p hp
      have hnn : (0:Int) ≤ (xs.length : Int) := Int.natCast_nonneg xs.length
      simp only [List.length_cons]
      push_cast
      have hd1 : ((xs.length : Int) + 1) * 32768 = xs.length * 32768 + 32768 := by ring
      have hd2 : ((xs.length : Int) + 1) * 32767 = xs.length * 32767 + 32767 := by ring
      rw [hd1, hd2]
      simp only [List.scanl, List.mem_cons] at hp
      rcases hp with hp | hp
      · subst hp
        have h1 : (0:Int) ≤ (xs.length : Int) * 32768 := mul_nonneg hnn (by norm_num)
        have h2 : (0:Int) ≤ (xs.length : Int) * 32767 := mul_nonneg hnn (by norm_num)
        constructor <;> linarith
      · have hx := hq x (by simp)
        unfold isQ15 at hx
        have hxs : ∀ v ∈ xs, isQ15 v := fun v hv => hq v (by simp [hv])
        have hb := ih (a + x) hxs p hp
        norm_num at hb hx
        constructor <;> linarith [hb.1, hb.2, hx.1, hx.2]

lemma symmetrize_sum (l : List Int) : (symmetrize l).sum = 0 := by
  induction l with
  | nil => simp [symmetrize]
  | cons x xs ih =>
      simp only [symmetrize, List.map_cons, List.flatten] at ih ⊢
      simp [ih]
end

section
/-- C1: the spec requires every execution strategy to return the identical
bit pattern for every valid input; the `__RISCV_XLEN == 64` unrolled
strategy extracts only a 16-bit lane from each pairwise lane sum of
`__RV_KADD16`, losing the carry of the 17-bit pair sum, so on eight samples
of value 16384 (Q1.15 0.5) it stores -16384 while the portable scalar
strategy stores the exact mean 16384. -/
theorem mean_q15_xlen64_unrolled_diverges :
    riscv_mean_q15_unrolled64 (List.replicate 8 16384) = -16384
  ∧ riscv_mean_q15 (List.replicate 8 16384) = 16384
  ∧ riscv_mean_q15_unrolled64 (List.replicate 8 16384) ≠ riscv_mean_q15 (List.replicate 8 16384) := by
  refine ⟨by decide, by decide, by decide⟩

/-- C2: for every non-empty input whose length fits the positive signed
32-bit range, the portable kernel stores exactly
`truncate_to_q15 ((32-bit accumulated sum) / length)` with the division
truncating toward zero, i.e. it meets the spec postcondition verbatim. -/
theorem mean_q15_matches_spec_postcondition (l : List Int) (_h1 : 0 < l.length)
    (h2 : l.length < 2^31) : riscv_mean_q15 l = compute_mean_spec l := by
  unfold riscv_mean_q15 compute_mean_spec
  rw [q15sum_eq]
  have ht : toInt32 l.length = (l.length : Int) := by
    unfold toInt32 wrap32
    omega
  rw [ht]

theorem mean_q15_matches_spec_postcondition_witness :
    0 < ([9, 10, -1] : List Int).length ∧ ([9, 10, -1] : List Int).length < 2^31
  ∧ riscv_mean_q15 [9, 10, -1] = compute_mean_spec [9, 10, -1] :=
  ⟨by decide, by decide, mean_q15_matches_spec_postcondition [9, 10, -1] (by decide) (by decide)⟩

/-- C3: no addition in any strategy clamps: the 32-bit accumulator additions
and the modelled 16-bit lane additions of `__RV_KADD16` are congruent to the
exact sums modulo their width (wrapping two's-complement, never saturated to
a representable bound), and the portable and vector accumulations each
compute exactly the wrapped integer sum of the input. -/
theorem mean_q15_no_saturation :
    (∀ s x : Int, wrap32 (s + x) % 2^32 = (s + x) % 2^32
       ∧ -2^31 ≤ wrap32 (s + x) ∧ wrap32 (s + x) < 2^31)
  ∧ (∀ a b : Int,
      ulane 0 (kadd16 a b) = (ulane 0 a + ulane 0 b) % 2^16
    ∧ ulane 1 (kadd16 a b) = (ulane 1 a + ulane 1 b) % 2^16
    ∧ ulane 2 (kadd16 a b) = (ulane 2 a + ulane 2 b) % 2^16
    ∧ ulane 3 (kadd16 a b) = (ulane 3 a + ulane 3 b) % 2^16)
  ∧ (∀ l : List Int, q15sum l = wrap32 l.sum)
  ∧ (∀ (c : Nat) (l : List Int), vectorLoop c 0 l = wrap32 l.sum) := by
  refine ⟨?_, kadd16_lanes, q15sum_eq, vectorLoop_wrap⟩
  intro s x
  unfold wrap32
  omega

/-- C4, counterexample: the claimed safe bound `blockSize ≤ 2^17` is too
generous; 65537 samples of value -32768 stay within the bound yet drive the
exact running sum to -2^31 - 2^15, below the signed 32-bit range. -/
theorem acc_overflow_within_claimed_bound :
    (∀ v ∈ List.replicate 65537 (-32768 : Int), isQ15 v)
  ∧ (List.replicate 65537 (-32768 : Int)).length ≤ 2^17
  ∧ ¬ noAccOverflow (List.replicate 65537 (-32768 : Int)) := by
  refine ⟨?_, ?_, ?_⟩
  · intro v hv
    have hv' := List.eq_of_mem_replicate hv
    subst hv'
    decide
  · rw [List.length_replicate]
    norm_num
  · intro h
    have hm := accSteps_mem_sum (List.replicate 65537 (-32768 : Int)) 0
    have hs : (List.replicate 65537 (-32768 : Int)).sum = -2147516416 := by
      rw [List.sum_replicate]
      norm_num
    rw [hs] at hm
    unfold noAccOverflow accSteps at h
    have hb := h _ hm
    omega

/-- C4, amended: for every input of at most 2^16 Q1.15 samples the exact
running accumulator stays inside the signed 32-bit range at every step, so
the 32-bit accumulation never overflows. -/
theorem acc_no_overflow_up_to_pow16 (l : List Int) (hq : ∀ v ∈ l, isQ15 v)
    (hl : l.length ≤ 2^16) : noAccOverflow l := by
  unfold noAccOverflow accSteps
  intro p hp
  have hb := accSteps_bound l 0 hq p hp
  have hc : (l.length : Int) ≤ 65536 := by exact_mod_cast hl
  have hnn : (0:Int) ≤ (l.length : Int) := Int.natCast_nonneg l.length
  norm_num at hb
  have h1 : (l.length : Int) * 32768 ≤ 65536 * 32768 :=
    mul_le_mul_of_nonneg_right hc (by norm_num)
  have h2 : (l.length : Int) * 32767 ≤ 65536 * 32767 :=
    mul_le_mul_of_nonneg_right hc (by norm_num)
  constructor <;> linarith [hb.1, hb.2]

theorem acc_no_overflow_up_to_pow16_witness :
    (∀ v ∈ ([32767, -32768, 100] : List Int), isQ15 v)
  ∧ ([32767, -32768, 100] : List Int).length ≤ 2^16
  ∧ noAccOverflow [32767, -32768, 100] :=
  ⟨by decide, by decide, acc_no_overflow_up_to_pow16 _ (by decide) (by decide)⟩

/-- C5: the mean of a constant sequence of `n` copies of a Q1.15 value `v`
(with `0 < n` within the no-overflow bound) is exactly `v`: the sum is `n*v`
without overflow, the truncating division is exact, and the final narrowing
is the identity on the Q1.15 range. -/
theorem mean_q15_constant_input (v : Int) (n : Nat) (hv : isQ15 v) (h0 : 0 < n)
    (hn : n ≤ 2^16) : riscv_mean_q15 (List.replicate n v) = v := by
  unfold riscv_mean_q15 truncate_to_q15
  rw [q15sum_eq]
  have hs : (List.replicate n v).sum = (n : Int) * v := by
    rw [List.sum_replicate]
    exact nsmul_eq_mul n v
  rw [hs]
  unfold isQ15 at hv
  have hnn : (0:Int) < (n:Int) := by exact_mod_cast h0
  have hc : (n:Int) ≤ 65536 := by exact_mod_cast hn
  have hub : (n:Int) * v ≤ (n:Int) * 32767 := mul_le_mul_of_nonneg_left (by omega) (by omega)
  have hub2 : (n:Int) * 32767 ≤ 65536 * 32767 := mul_le_mul_of_nonneg_right hc (by norm_num)
  have hlb : (n:Int) * (-32768) ≤ (n:Int) * v := mul_le_mul_of_nonneg_left (by omega) (by omega)
  have hlb2 : (-65536) * 32768 ≤ (n:Int) * (-32768) := by nlinarith
  have hw : wrap32 ((n:Int) * v) = (n:Int) * v := by
    unfold wrap32
    omega
  rw [hw]
  have hlen : toInt32 (List.replicate n v).length = (n : Int) := by
    rw [List.length_replicate]
    unfold toInt32 wrap32
    omega
  rw [hlen]
  rw [Int.mul_tdiv_cancel_left v (by omega : (n:Int) ≠ 0)]
  unfold wrap16
  omega

theorem mean_q15_constant_input_witness :
    isQ15 1234 ∧ 0 < 3 ∧ 3 ≤ 2^16 ∧ riscv_mean_q15 (List.replicate 3 1234) = 1234 :=
  ⟨by decide, by decide, by decide, mean_q15_constant_input 1234 3 (by decide) (by decide) (by decide)⟩

/-- C6: a single-element input returns that sample's bit pattern unchanged:
the sum is the sample, the division by 1 is the identity, and the narrowing
cast is the identity on the Q1.15 range. -/
theorem mean_q15_single_element (v : Int) (hv : isQ15 v) : riscv_mean_q15 [v] = v := by
  unfold riscv_mean_q15 truncate_to_q15
  rw [q15sum_eq]
  unfold isQ15 at hv
  have h1 : ([v] : List Int).sum = v := by simp
  rw [h1]
  have hw : wrap32 v = v := by
    unfold wrap32
    omega
  rw [hw]
  have hlen : toInt32 ([v] : List Int).length = 1 := by
    rw [List.length_singleton]
    decide
  rw [hlen, Int.tdiv_one]
  unfold wrap16
  omega

theorem mean_q15_single_element_witness :
    isQ15 (-32768) ∧ riscv_mean_q15 [-32768] = -32768 :=
  ⟨by decide, mean_q15_single_element (-32768) (by decide)⟩

/-- C7: on the input `[3, -4]` the stored mean is 0, because the quotient
`-1 / 2` truncates toward zero; a floor (round-toward-negative-infinity)
division of the same accumulated sum would store -1 instead. -/
theorem mean_q15_truncates_toward_zero :
    riscv_mean_q15 [3, -4] = 0
  ∧ truncate_to_q15 (Int.fdiv (q15sum [3, -4]) (toInt32 ([3, -4] : List Int).length)) = -1 := by
  refine ⟨by decide, by decide⟩

/-- C8: for every non-empty input in which each sample is paired with its
negation the stored mean is exactly 0: the accumulated sum vanishes and
`0 / blockSize` is 0. -/
theorem mean_q15_symmetric_input_zero (l : List Int) (_hne : l ≠ []) :
    riscv_mean_q15 (symmetrize l) = 0 := by
  unfold riscv_mean_q15 truncate_to_q15
  rw [q15sum_eq, symmetrize_sum, wrap32_zero, Int.zero_tdiv]
  decide

theorem mean_q15_symmetric_input_zero_witness :
    ([21] : List Int) ≠ [] ∧ riscv_mean_q15 (symmetrize [21]) = 0 :=
  ⟨by decide, mean_q15_symmetric_input_zero [21] (by decide)⟩

/-- C9: the kernel is a pure function of the buffer contents and length:
invoking it twice on an unmutated buffer stores the same result as invoking
it once, an invocation never mutates the input buffer, and the stored result
depends only on the buffer, not on the prior contents of the result slot. -/
theorem mean_q15_pure_function (s t : KernelState) :
    invoke (invoke s) = invoke s
  ∧ (invoke s).pSrc = s.pSrc
  ∧ (t.pSrc = s.pSrc → (invoke t).pResult = (invoke s).pResult) := by
  refine ⟨rfl, rfl, ?_⟩
  intro h
  simp [invoke, h]

theorem mean_q15_pure_function_witness :
    invoke (invoke ⟨[4, 2], 0⟩) = invoke ⟨[4, 2], 0⟩
  ∧ (invoke ⟨[4, 2], 0⟩).pSrc = ([4, 2] : List Int)
  ∧ (invoke ⟨[4, 2], 99⟩).pResult = (invoke ⟨[4, 2], 0⟩).pResult :=
  ⟨(mean_q15_pure_function ⟨[4, 2], 0⟩ ⟨[4, 2], 99⟩).1,
   (mean_q15_pure_function ⟨[4, 2], 0⟩ ⟨[4, 2], 99⟩).2.1,
   (mean_q15_pure_function ⟨[4, 2], 0⟩ ⟨[4, 2], 99⟩).2.2 rfl⟩

/-- C10, counterexample: at `blockSize = 2^31` (a negative `(int32_t)`
divisor) the stored result does not always differ from dividing by the
unsigned length: on an all-zero input both quotients are 0, so the claim's
universal "the stored result differs" is false as stated. -/
theorem mean_q15_signed_divisor_can_coincide :
    2^31 ≤ (List.replicate (2^31) (0 : Int)).length
  ∧ riscv_mean_q15 (List.replicate (2^31) (0 : Int))
      = unsignedDivMean (List.replicate (2^31) (0 : Int)) := by
  constructor
  · rw [List.length_replicate]
  · unfold riscv_mean_q15 unsignedDivMean
    rw [q15sum_eq]
    have hs : (List.replicate (2^31) (0 : Int)).sum = 0 := by
      rw [List.sum_replicate, smul_zero]
    rw [hs, wrap32_zero, Int.zero_tdiv, Int.zero_tdiv]

/-- C10, amended: for every `blockSize` in `[2^31, 2^32)` the divisor
`(int32_t) blockSize` is negative, and there are inputs of that length —
all samples equal to 1 — on which the stored result (here 1) differs from
dividing the same accumulated sum by the unsigned length (0 or -1). -/
theorem mean_q15_signed_divisor_negative_and_can_differ (n : Nat) (h1 : 2^31 ≤ n)
    (h2 : n < 2^32) :
    toInt32 n < 0
  ∧ riscv_mean_q15 (List.replicate n 1) ≠ unsignedDivMean (List.replicate n 1) := by
  have ht : toInt32 n = (n : Int) - 2^32 := by
    unfold toInt32 wrap32
    omega
  constructor
  · rw [ht]
    omega
  · unfold riscv_mean_q15 unsignedDivMean truncate_to_q15
    rw [q15sum_eq]
    have hs : (List.replicate n (1:Int)).sum = (n : Int) := by
      rw [List.sum_replicate]
      simp
    rw [hs, List.length_replicate, ht]
    have hw : wrap32 (n : Int) = (n : Int) - 2^32 := by
      unfold wrap32
      omega
    rw [hw]
    have hl : Int.tdiv ((n : Int) - 2^32) ((n : Int) - 2^32) = 1 := Int.tdiv_self (by omega)
    rw [hl]
    have hneg : Int.tdiv ((n : Int) - 2^32) (n : Int) = -Int.tdiv (2^32 - (n : Int)) (n : Int) := by
      rw [← Int.neg_tdiv]
      norm_num
    have he : Int.tdiv (2^32 - (n : Int)) (n : Int) = (2^32 - (n : Int)) / (n : Int) :=
      Int.tdiv_eq_ediv (by omega) (by omega)
    have hnn : 0 ≤ (2^32 - (n : Int)) / (n : Int) := Int.ediv_nonneg (by omega) (by omega)
    have hlt : (2^32 - (n : Int)) / (n : Int) < 2 := Int.ediv_lt_of_lt_mul (by omega) (by omega)
    have hq : Int.tdiv ((n : Int) - 2^32) (n : Int) ≤ 0 ∧
        -1 ≤ Int.tdiv ((n : Int) - 2^32) (n : Int) := by
      rw [hneg, he]
      omega
    unfold wrap16
    omega

theorem mean_q15_signed_divisor_negative_and_can_differ_witness :
    2^31 ≤ 2^31 ∧ 2^31 < 2^32
  ∧ toInt32 (2^31) < 0
  ∧ riscv_mean_q15 (List.replicate (2^31) 1) ≠ unsignedDivMean (List.replicate (2^31) 1) :=
  ⟨by norm_num, by norm_num,
   (mean_q15_signed_divisor_negative_and_can_differ (2^31) (by norm_num) (by norm_num)).1,
   (mean_q15_signed_divisor_negative_and_can_differ (2^31) (by norm_num) (by norm_num)).2⟩
end
